import Mathlib

/-!
Verification of the diff-processing pipeline of `src/gemini.ts`
(vscode-gemini-commits).

The JavaScript strings are modelled as `List Char`; every function below is a
direct transliteration of the corresponding TypeScript function.  All
definitions are structural recursions, so concrete inputs evaluate by `decide`.
-/

namespace GeminiCommits

/-- JS strings are modelled as lists of characters. -/
abbrev Str := List Char

/-- `line.startsWith(marker)` of JS. -/
def strStartsWith (s p : Str) : Bool :=
  p.isPrefixOf s

/-- `text.split(c)` of JS for a single-character separator: `"" ↦ [""]`,
separators delimit (possibly empty) fields. -/
def splitOnChar (c : Char) : Str → List Str
  | [] => [[]]
  | a :: rest =>
    match splitOnChar c rest with
    | [] => [[]]
    | g :: gs => if a = c then [] :: g :: gs else (a :: g) :: gs

/- ------------------------------------------------------------------ -/
/- String constants appearing literally in `gemini.ts`.                -/
/- ------------------------------------------------------------------ -/

def diffGitMarker : Str := "diff --git ".toList

def strNewFileMode : Str := "new file mode".toList

def strDeletedFileMode : Str := "deleted file mode".toList

def strBinaryFiles : Str := "Binary files".toList

def strRenameFrom : Str := "rename from".toList

def strAtAt : Str := "@@".toList

def strAtAtDash : Str := "@@ -".toList

def strSpacePlusSign : Str := " +".toList

def strSpaceAtAt : Str := " @@".toList

def strPlus : Str := "+".toList

def strTriplePlus : Str := "+++".toList

def strMinus : Str := "-".toList

def strTripleMinus : Str := "---".toList

def strSpace : Str := " ".toList

def strASlash : Str := "a/".toList

def strSpaceBSlash : Str := " b/".toList

/- ------------------------------------------------------------------ -/
/- Data model (the exported interfaces of `gemini.ts`).                -/
/- ------------------------------------------------------------------ -/

/-- `CodeChange.type`: `'addition' | 'deletion' | 'context'`. -/
inductive ChangeType where
  | addition
  | deletion
  | context
deriving DecidableEq

/-- Interface `CodeChange` of `gemini.ts`. -/
structure CodeChange where
  type : ChangeType
  line : Str
  lineNumber : Option Nat
deriving DecidableEq

/-- Interface `FileChange` of `gemini.ts`. -/
structure FileChange where
  path : Str
  additions : Nat
  deletions : Nat
  changes : List CodeChange
  isBinary : Bool
  isNew : Bool
  isDeleted : Bool
  isRenamed : Bool
  oldPath : Option Str
deriving DecidableEq

/-- Interface `DiffStats` of `gemini.ts`. -/
structure DiffStats where
  totalFiles : Nat
  totalAdditions : Nat
  totalDeletions : Nat
  totalChanges : Nat
  estimatedTokens : Nat
deriving DecidableEq

/-- Return type of `processDiffIntelligently`. -/
structure ProcessedDiff where
  content : Str
  wasCompacted : Bool
  stats : DiffStats
deriving DecidableEq

/-- The freshly initialised `fileChange` object literal of `parseDiff`. -/
def initFileChange : FileChange :=
  { path := [], additions := 0, deletions := 0, changes := [], isBinary := false,
    isNew := false, isDeleted := false, isRenamed := false, oldPath := none }

/- ------------------------------------------------------------------ -/
/- `diff.split(/^diff --git /m).filter(Boolean)` and per-section lines. -/
/- ------------------------------------------------------------------ -/

/--
Groups the lines of the input into the sections produced by
`diff.split(/^diff --git /m)` followed by `section.split('\n')`.
A line starting with `"diff --git "` closes the current section; the closed
section gains a trailing empty line (the newline before the separator belongs
to the preceding piece of the raw split).  A boundary at the very start of the
input corresponds to the raw split's leading `""` piece, encoded `[]`.
-/
def sectionsAux : List Str → List Str → List (List Str)
  | [], cur => [cur.reverse]
  | l :: rest, cur =>
    if strStartsWith l diffGitMarker then
      (if cur = [] then [] else cur.reverse ++ [[]]) ::
        sectionsAux rest [l.drop diffGitMarker.length]
    else
      sectionsAux rest (l :: cur)

/--
The line lists of the non-empty pieces of `diff.split(/^diff --git /m)`:
a piece is the empty string exactly when its encoding is `[]` (a separator at
position 0) or `[[]]` (the input ends right after a separator), and
`filter(Boolean)` removes those.
-/
def splitSections (diff : Str) : List (List Str) :=
  (sectionsAux (splitOnChar '\n' diff) []).filter (fun g => g ≠ [] && g ≠ [[]])

/- ------------------------------------------------------------------ -/
/- The header regex `/a\/(.*?) b\/(.*?)$/`.                            -/
/- ------------------------------------------------------------------ -/

/-- Splits `s` at the leftmost occurrence of `" b/"`: returns the part before
the occurrence and the part after it. -/
def findBSep : Str → Option (Str × Str)
  | [] => none
  | c :: rest =>
    if strStartsWith (c :: rest) strSpaceBSlash then
      some ([], (c :: rest).drop strSpaceBSlash.length)
    else
      match findBSep rest with
      | none => none
      | some pq => some (c :: pq.1, pq.2)

/--
`firstLine.match(/a\/(.*?) b\/(.*?)$/)`: the leftmost position where `a/` is
followed (lazily) by `" b/"`; group 1 is the text between them, group 2 runs
to the end of the line.
-/
def matchABPaths : Str → Option (Str × Str)
  | [] => none
  | c :: rest =>
    if strStartsWith (c :: rest) strASlash then
      match findBSep ((c :: rest).drop strASlash.length) with
      | some pq => some pq
      | none => matchABPaths rest
    else
      matchABPaths rest

/- ------------------------------------------------------------------ -/
/- The hunk-header regex `/@@ -\d+,?\d* \+(\d+),?\d* @@/`.             -/
/- ------------------------------------------------------------------ -/

/-- Splits a maximal leading digit run off a string. -/
def takeDigits : Str → Str × Str
  | [] => ([], [])
  | c :: rest =>
    if c.isDigit then
      let p := takeDigits rest
      (c :: p.1, p.2)
    else
      ([], c :: rest)

/-- Consumes the `,?\d*` part of the hunk-header regex. -/
def skipCommaDigits (s : Str) : Str :=
  let s1 := if strStartsWith s [','] then s.drop 1 else s
  (takeDigits s1).2

/-- Decimal digit run to a natural number (`parseInt(d, 10)`). -/
def digitsToNat (ds : Str) : Nat :=
  ds.foldl (fun acc c => 10 * acc + (c.toNat - 48)) 0

/-- Matches `@@ -\d+,?\d* \+(\d+),?\d* @@` at the head of `s`; on success
returns the value of the capture group (the post-change start line). -/
def matchHunkAt (s : Str) : Option Nat :=
  if strStartsWith s strAtAtDash then
    let r1 := s.drop strAtAtDash.length
    let p1 := takeDigits r1
    if p1.1 = [] then none
    else
      let r3 := skipCommaDigits p1.2
      if strStartsWith r3 strSpacePlusSign then
        let p2 := takeDigits (r3.drop strSpacePlusSign.length)
        if p2.1 = [] then none
        else
          let r5 := skipCommaDigits p2.2
          if strStartsWith r5 strSpaceAtAt then some (digitsToNat p2.1) else none
      else none
  else none

/-- `line.match(/@@ -\d+,?\d* \+(\d+),?\d* @@/)`: unanchored leftmost match. -/
def hunkHeaderNum : Str → Option Nat
  | [] => none
  | c :: rest =>
    match matchHunkAt (c :: rest) with
    | some n => some n
    | none => hunkHeaderNum rest

/- ------------------------------------------------------------------ -/
/- `parseDiff`.                                                        -/
/- ------------------------------------------------------------------ -/

/-- The file-header parse of `parseDiff`: match the path regex on `lines[0]`,
set `path` to the `b` side, and mark a rename when the two sides differ. -/
def applyHeader (ls : List Str) (fc : FileChange) : FileChange :=
  match matchABPaths (ls.headD []) with
  | some pq =>
    let fc1 := { fc with path := pq.2 }
    if pq.1 ≠ pq.2 then { fc1 with isRenamed := true, oldPath := some pq.1 } else fc1
  | none => fc

/-- The status-marker scan of `parseDiff` (one line). -/
def applyStatusLine (fc : FileChange) (l : Str) : FileChange :=
  if strStartsWith l strNewFileMode then { fc with isNew := true }
  else if strStartsWith l strDeletedFileMode then { fc with isDeleted := true }
  else if strStartsWith l strBinaryFiles then { fc with isBinary := true }
  else if strStartsWith l strRenameFrom then { fc with isRenamed := true }
  else fc

/-- One step of the hunk-scanning loop of `parseDiff`; the state is
`(inHunk, currentLineNumber, fileChange)`. -/
def hunkStep (s : Bool × Nat × FileChange) (l : Str) : Bool × Nat × FileChange :=
  match s with
  | (inHunk, cur, fc) =>
    if strStartsWith l strAtAt then
      match hunkHeaderNum l with
      | some n => (true, n, fc)
      | none => (true, cur, fc)
    else if inHunk && !fc.isBinary then
      if strStartsWith l strPlus && !strStartsWith l strTriplePlus then
        (inHunk, cur + 1,
          { fc with
            additions := fc.additions + 1
            changes := fc.changes ++
              [{ type := ChangeType.addition, line := l.drop 1, lineNumber := some cur }] })
      else if strStartsWith l strMinus && !strStartsWith l strTripleMinus then
        (inHunk, cur,
          { fc with
            deletions := fc.deletions + 1
            changes := fc.changes ++
              [{ type := ChangeType.deletion, line := l.drop 1, lineNumber := none }] })
      else if strStartsWith l strSpace then
        (inHunk, cur + 1,
          { fc with changes := fc.changes ++
              [{ type := ChangeType.context, line := l.drop 1, lineNumber := some cur }] })
      else (inHunk, cur, fc)
    else (inHunk, cur, fc)

/-- Parses one `diff --git` section: header, then the status scan over all
lines, then the hunk scan over all lines. -/
def parseSection (ls : List Str) : FileChange :=
  let fc0 := applyHeader ls initFileChange
  let fc1 := ls.foldl applyStatusLine fc0
  (ls.foldl hunkStep (false, 0, fc1)).2.2

/-- `parseDiff` of `gemini.ts`: a record is kept only when a non-empty path
was recovered. -/
def parseDiff (diff : Str) : List FileChange :=
  ((splitSections diff).map parseSection).filter (fun fc => !fc.path.isEmpty)

/- ------------------------------------------------------------------ -/
/- `calculateDiffStats`, `estimateTokens`, `isLargeDiff`.              -/
/- ------------------------------------------------------------------ -/

/-- `calculateDiffStats` of `gemini.ts`: `estimatedTokens` is initialised to
`0` and never reassigned. -/
def calculateDiffStats (files : List FileChange) : DiffStats :=
  let ta := files.foldl (fun acc f => acc + f.additions) 0
  let td := files.foldl (fun acc f => acc + f.deletions) 0
  { totalFiles := files.length, totalAdditions := ta, totalDeletions := td,
    totalChanges := ta + td, estimatedTokens := 0 }

/-- `estimateTokens` of `gemini.ts`: `Math.ceil(text.length / 2.5)`, i.e. the
least natural number `m` with `text.length ≤ 2.5 * m`; over the naturals this
ceiling is `(2 * length + 4) / 5`. -/
def estimateTokens (text : Str) : Nat :=
  (2 * text.length + 4) / 5

/-- `isLargeDiff` of `gemini.ts`; `files || parseDiff(diff)` becomes an
`Option` match (`undefined ↦ none`). -/
def isLargeDiff (diff : Str) (files : Option (List FileChange)) : Bool :=
  let parsedFiles := match files with | some fs => fs | none => parseDiff diff
  let stats := calculateDiffStats parsedFiles
  let est := estimateTokens diff
  decide (50 < stats.totalFiles) || decide (500 < stats.totalChanges) ||
    decide (15000 < est)

/- ------------------------------------------------------------------ -/
/- `generateCompactDiffSummary`.                                       -/
/- ------------------------------------------------------------------ -/

/-- The whitespace classes stripped by JS `String.prototype.trim`
(the ones expressible in diff lines). -/
def isJsSpace (c : Char) : Bool :=
  c = ' ' || c = '\t' || c = '\n' || c = '\r' ||
    c = '\x0b' || c = '\x0c' || c = ' ' || c = '﻿'

/-- JS `s.trim()`. -/
def trim (s : Str) : Str :=
  ((s.dropWhile isJsSpace).reverse.dropWhile isJsSpace).reverse

def sumHeader : Str := "## Diff Summary\n\n".toList

def statsLabel : Str := "**Statistics**: ".toList

def fileWord : Str := " file".toList

def changedWord : Str := " changed, ".toList

def insertionWord : Str := " insertion".toList

def insertionTail : Str := "(+), ".toList

def deletionWord : Str := " deletion".toList

def deletionTail : Str := "(-)\n\n".toList

def sLetter : Str := "s".toList

def headingMark : Str := "### ".toList

def nlStr : Str := "\n".toList

def statusNewStr : Str := "**Status**: New file\n".toList

def statusDeletedStr : Str := "**Status**: Deleted\n".toList

def statusRenamedStr : Str := "**Status**: Renamed from `".toList

def backtickNl : Str := "`\n".toList

def undefinedStr : Str := "undefined".toList

def typeBinaryStr : Str := "**Type**: Binary file\n\n".toList

def changesLabel : Str := "**Changes**: +".toList

def spaceMinusStr : Str := " -".toList

def nlNl : Str := "\n\n".toList

def keyChangesOpen : Str := "**Key changes**:\n```\n".toList

def fenceClose : Str := "```\n\n".toList

def noticeStart : Str := "... and ".toList

def noticeEnd : Str := " more changes\n".toList

/-- Decimal rendering of a count inside a template literal. -/
def natToStr (n : Nat) : Str :=
  (toString n).toList

/-- The `${n !== 1 ? 's' : ''}` pluralisation of the statistics line. -/
def pluralS (n : Nat) : Str :=
  if n ≠ 1 then sLetter else []

/-- The `**Statistics**` line of `generateCompactDiffSummary`. -/
def statsLine (st : DiffStats) : Str :=
  statsLabel ++ natToStr st.totalFiles ++ fileWord ++ pluralS st.totalFiles ++
    changedWord ++ natToStr st.totalAdditions ++ insertionWord ++
    pluralS st.totalAdditions ++ insertionTail ++ natToStr st.totalDeletions ++
    deletionWord ++ pluralS st.totalDeletions ++ deletionTail

/-- The filter
`change => change.type !== 'context' && change.line.trim().length > 0`. -/
def meaningfulChanges (f : FileChange) : List CodeChange :=
  f.changes.filter
    (fun c => (!decide (c.type = ChangeType.context)) && decide (0 < (trim c.line).length))

/-- `meaningfulChanges.slice(0, maxLinesPerFile)`. -/
def shownChanges (cap : Nat) (f : FileChange) : List CodeChange :=
  (meaningfulChanges f).take cap

/-- The `change.type === 'addition' ? '+' : '-'` marker. -/
def changeMark (t : ChangeType) : Str :=
  if t = ChangeType.addition then strPlus else strMinus

/-- One rendered change line: `` `${prefix} ${change.line}\n` ``. -/
def renderChange (c : CodeChange) : Str :=
  changeMark c.type ++ strSpace ++ c.line ++ nlStr

/-- The fenced `**Key changes**` block of one file (empty when there is no
non-trivial change line). -/
def changesBlock (cap : Nat) (f : FileChange) : Str :=
  let mc := meaningfulChanges f
  if 0 < mc.length then
    keyChangesOpen ++ ((mc.take cap).map renderChange).flatten ++
      (if cap < mc.length then noticeStart ++ natToStr (mc.length - cap) ++ noticeEnd
        else []) ++
      fenceClose
  else []

/-- The at-most-one status line of a file's summary block. -/
def statusPart (f : FileChange) : Str :=
  if f.isNew then statusNewStr
  else if f.isDeleted then statusDeletedStr
  else if f.isRenamed then
    statusRenamedStr ++ (f.oldPath.getD undefinedStr) ++ backtickNl
  else []

/-- Everything `generateCompactDiffSummary` appends for one file. -/
def fileSection (cap : Nat) (f : FileChange) : Str :=
  headingMark ++ f.path ++ nlStr ++ statusPart f ++
    (if f.isBinary then typeBinaryStr
      else changesLabel ++ natToStr f.additions ++ spaceMinusStr ++
        natToStr f.deletions ++ nlNl ++ changesBlock cap f)

/-- `generateCompactDiffSummary` of `gemini.ts`. -/
def generateCompactDiffSummary (files : List FileChange) (cap : Nat) : Str :=
  sumHeader ++ statsLine (calculateDiffStats files) ++
    (files.map (fileSection cap)).flatten

/-- The declared default of `maxLinesPerFile` in the signature of
`generateCompactDiffSummary`. -/
def defaultMaxLinesPerFile : Nat := 20

/-- `processDiffIntelligently` of `gemini.ts`. -/
def processDiffIntelligently (diff : Str) : ProcessedDiff :=
  let files := parseDiff diff
  let stats := calculateDiffStats files
  if isLargeDiff diff (some files) then
    { content := generateCompactDiffSummary files 15, wasCompacted := true,
      stats := stats }
  else
    { content := diff, wasCompacted := false, stats := stats }

/- ------------------------------------------------------------------ -/
/- Derived notions used by the statements.                             -/
/- ------------------------------------------------------------------ -/

/-- Number of changes of a given kind in a change list. -/
def countType (t : ChangeType) (cs : List CodeChange) : Nat :=
  (cs.filter (fun c => decide (c.type = t))).length

/-- The `lineNumber` values of the addition/context entries of a change list,
in order (deletion entries carry no line number). -/
def acLineNums (cs : List CodeChange) : List Nat :=
  cs.filterMap (fun c => if c.type = ChangeType.deletion then none else c.lineNumber)

/- ------------------------------------------------------------------ -/
/- Concrete inputs used by witnesses and counterexamples.              -/
/- ------------------------------------------------------------------ -/

/-- A one-character input: its token estimate is 1, not 0. -/
def c3diff : Str := "x".toList

/-- A small well-formed diff: one file, one context line, one addition, one
deletion. -/
def w1diff : Str :=
  "diff --git a/f b/f\n@@ -1,1 +1,2 @@\n c\n+added\n-removed".toList

/-- Two hunks whose headers reseed the line counter non-monotonically:
the first hunk numbers its context lines 5, 6 and the second restarts at 1. -/
def c8diff : Str :=
  "diff --git a/f b/f\n@@ -1,2 +5,2 @@\n x\n y\n@@ -1,1 +1,1 @@\n z".toList

/-- A section carrying both a `new file mode` line and a
`deleted file mode` line. -/
def c9diff : Str :=
  "diff --git a/f b/f\nnew file mode 100644\ndeleted file mode 100644".toList

/-- One minimal file section whose recovered path is the non-empty `x`. -/
def c10sectionText : Str := "diff --git a/ b/x\n".toList

/-- 51 file sections: large by the file-count criterion alone. -/
def c10diff : Str := (List.replicate 51 c10sectionText).flatten

/-- A seven-character text (estimate 3). -/
def w6seven : Str := "abcdefg".toList

/-- A three-character text (estimate 2). -/
def w6three : Str := "abc".toList

/-- A context line for the hunk-loop witness. -/
def w8ctx : Str := " x".toList

/-- An addition line for the hunk-loop witness. -/
def w8add : Str := "+y".toList

def c5change1 : CodeChange :=
  { type := ChangeType.addition, line := "alpha".toList, lineNumber := some 1 }

def c5change2 : CodeChange :=
  { type := ChangeType.addition, line := "beta".toList, lineNumber := some 2 }

def c5change3 : CodeChange :=
  { type := ChangeType.deletion, line := "gamma".toList, lineNumber := none }

def c5change4 : CodeChange :=
  { type := ChangeType.context, line := "ctx".toList, lineNumber := some 3 }

/-- A file with three non-trivial changes and one context change. -/
def c5file : FileChange :=
  { path := "m.ts".toList, additions := 2, deletions := 1,
    changes := [c5change1, c5change2, c5change3, c5change4], isBinary := false,
    isNew := false, isDeleted := false, isRenamed := false, oldPath := none }

def c5files : List FileChange := [c5file]

/- ------------------------------------------------------------------ -/
/- General helper lemmas.                                              -/
/- ------------------------------------------------------------------ -/

theorem foldl_preserves {σ α : Type} (f : σ → α → σ) (P : σ → Prop)
    (hf : ∀ s a, P s → P (f s a)) :
    ∀ (ls : List α) (s : σ), P s → P (ls.foldl f s) := by
  intro ls
  induction ls with
  | nil => intro s hs; exact hs
  | cons a rest ih => intro s hs; exact ih _ (hf s a hs)

theorem applyStatusLine_body (fc : FileChange) (l : Str) :
    (applyStatusLine fc l).additions = fc.additions ∧
    (applyStatusLine fc l).deletions = fc.deletions ∧
    (applyStatusLine fc l).changes = fc.changes := by
  unfold applyStatusLine
  repeat' split
  all_goals exact ⟨rfl, rfl, rfl⟩

theorem statusFold_body (ls : List Str) (fc : FileChange) :
    (ls.foldl applyStatusLine fc).additions = fc.additions ∧
    (ls.foldl applyStatusLine fc).deletions = fc.deletions ∧
    (ls.foldl applyStatusLine fc).changes = fc.changes := by
  induction ls generalizing fc with
  | nil => exact ⟨rfl, rfl, rfl⟩
  | cons l rest ih =>
    have h1 := applyStatusLine_body fc l
    have h2 := ih (applyStatusLine fc l)
    rw [List.foldl_cons]
    exact ⟨h2.1.trans h1.1, h2.2.1.trans h1.2.1, h2.2.2.trans h1.2.2⟩

theorem applyHeader_body (ls : List Str) (fc : FileChange) :
    (applyHeader ls fc).additions = fc.additions ∧
    (applyHeader ls fc).deletions = fc.deletions ∧
    (applyHeader ls fc).changes = fc.changes ∧
    (applyHeader ls fc).isNew = fc.isNew ∧
    (applyHeader ls fc).isDeleted = fc.isDeleted ∧
    (applyHeader ls fc).isBinary = fc.isBinary := by
  unfold applyHeader
  repeat' split
  all_goals exact ⟨rfl, rfl, rfl, rfl, rfl, rfl⟩

theorem countType_append (t : ChangeType) (cs : List CodeChange) (c : CodeChange) :
    countType t (cs ++ [c]) = countType t cs + (if c.type = t then 1 else 0) := by
  unfold countType
  rw [List.filter_append, List.length_append]
  congr 1
  by_cases h : c.type = t <;> simp [h]

/- Equation lemmas for the five outcomes of `hunkStep`. -/

theorem hunkStep_header (b : Bool) (n : Nat) (fc : FileChange) (l : Str)
    (hAt : strStartsWith l strAtAt = true) :
    hunkStep (b, n, fc) l = (true, (hunkHeaderNum l).getD n, fc) := by
  unfold hunkStep
  dsimp only
  rw [hAt]
  cases h : hunkHeaderNum l <;> simp [h]

theorem hunkStep_idle (b : Bool) (n : Nat) (fc : FileChange) (l : Str)
    (hAt : strStartsWith l strAtAt = false)
    (hB : (b && !fc.isBinary) = false) :
    hunkStep (b, n, fc) l = (b, n, fc) := by
  unfold hunkStep
  dsimp only
  rw [hAt, hB]
  simp

theorem hunkStep_add (b : Bool) (n : Nat) (fc : FileChange) (l : Str)
    (hAt : strStartsWith l strAtAt = false)
    (hB : (b && !fc.isBinary) = true)
    (hP : (strStartsWith l strPlus && !strStartsWith l strTriplePlus) = true) :
    hunkStep (b, n, fc) l = (b, n + 1,
      { fc with
        additions := fc.additions + 1
        changes := fc.changes ++
          [{ type := ChangeType.addition, line := l.drop 1, lineNumber := some n }] }) := by
  unfold hunkStep
  dsimp only
  rw [hAt, hB, hP]
  simp

theorem hunkStep_del (b : Bool) (n : Nat) (fc : FileChange) (l : Str)
    (hAt : strStartsWith l strAtAt = false)
    (hB : (b && !fc.isBinary) = true)
    (hP : (strStartsWith l strPlus && !strStartsWith l strTriplePlus) = false)
    (hM : (strStartsWith l strMinus && !strStartsWith l strTripleMinus) = true) :
    hunkStep (b, n, fc) l = (b, n,
      { fc with
        deletions := fc.deletions + 1
        changes := fc.changes ++
          [{ type := ChangeType.deletion, line := l.drop 1, lineNumber := none }] }) := by
  unfold hunkStep
  dsimp only
  rw [hAt, hB, hP, hM]
  simp

theorem hunkStep_ctx (b : Bool) (n : Nat) (fc : FileChange) (l : Str)
    (hAt : strStartsWith l strAtAt = false)
    (hB : (b && !fc.isBinary) = true)
    (hP : (strStartsWith l strPlus && !strStartsWith l strTriplePlus) = false)
    (hM : (strStartsWith l strMinus && !strStartsWith l strTripleMinus) = false)
    (hS : strStartsWith l strSpace = true) :
    hunkStep (b, n, fc) l = (b, n + 1,
      { fc with changes := fc.changes ++
          [{ type := ChangeType.context, line := l.drop 1, lineNumber := some n }] }) := by
  unfold hunkStep
  dsimp only
  rw [hAt, hB, hP, hM, hS]
  simp

theorem hunkStep_other (b : Bool) (n : Nat) (fc : FileChange) (l : Str)
    (hAt : strStartsWith l strAtAt = false)
    (hB : (b && !fc.isBinary) = true)
    (hP : (strStartsWith l strPlus && !strStartsWith l strTriplePlus) = false)
    (hM : (strStartsWith l strMinus && !strStartsWith l strTripleMinus) = false)
    (hS : strStartsWith l strSpace = false) :
    hunkStep (b, n, fc) l = (b, n, fc) := by
  unfold hunkStep
  dsimp only
  rw [hAt, hB, hP, hM, hS]
  simp

theorem hunkStep_counts (b : Bool) (n : Nat) (fc : FileChange) (l : Str)
    (h1 : fc.additions = countType ChangeType.addition fc.changes)
    (h2 : fc.deletions = countType ChangeType.deletion fc.changes)
    (h3 : fc.isBinary = true → fc.changes = []) :
    (hunkStep (b, n, fc) l).2.2.additions =
      countType ChangeType.addition (hunkStep (b, n, fc) l).2.2.changes ∧
    (hunkStep (b, n, fc) l).2.2.deletions =
      countType ChangeType.deletion (hunkStep (b, n, fc) l).2.2.changes ∧
    ((hunkStep (b, n, fc) l).2.2.isBinary = true → (hunkStep (b, n, fc) l).2.2.changes = []) := by
  cases hAt : strStartsWith l strAtAt with
  | true =>
    rw [hunkStep_header b n fc l hAt]
    exact ⟨h1, h2, h3⟩
  | false =>
    cases hB : (b && !fc.isBinary) with
    | false =>
      rw [hunkStep_idle b n fc l hAt hB]
      exact ⟨h1, h2, h3⟩
    | true =>
      have hbin : fc.isBinary = false := by
        have hB2 := hB
        simp only [Bool.and_eq_true] at hB2
        simpa using hB2.2
      cases hP : (strStartsWith l strPlus && !strStartsWith l strTriplePlus) with
      | true =>
        rw [hunkStep_add b n fc l hAt hB hP]
        refine ⟨?_, ?_, ?_⟩
        · show fc.additions + 1 = countType ChangeType.addition (fc.changes ++ _)
          rw [countType_append]
          simp [h1]
        · show fc.deletions = countType ChangeType.deletion (fc.changes ++ _)
          rw [countType_append]
          simp [h2]
        · intro habs
          rw [show ({ fc with
              additions := fc.additions + 1
              changes := fc.changes ++
                [{ type := ChangeType.addition, line := l.drop 1,
                   lineNumber := some n }] } : FileChange).isBinary = fc.isBinary from rfl] at habs
          rw [hbin] at habs
          cases habs
      | false =>
        cases hM : (strStartsWith l strMinus && !strStartsWith l strTripleMinus) with
        | true =>
          rw [hunkStep_del b n fc l hAt hB hP hM]
          refine ⟨?_, ?_, ?_⟩
          · show fc.additions = countType ChangeType.addition (fc.changes ++ _)
            rw [countType_append]
            simp [h1]
          · show fc.deletions + 1 = countType ChangeType.deletion (fc.changes ++ _)
            rw [countType_append]
            simp [h2]
          · intro habs
            rw [show ({ fc with
                deletions := fc.deletions + 1
                changes := fc.changes ++
                  [{ type := ChangeType.deletion, line := l.drop 1,
                     lineNumber := none }] } : FileChange).isBinary = fc.isBinary from rfl] at habs
            rw [hbin] at habs
            cases habs
        | false =>
          cases hS : strStartsWith l strSpace with
          | true =>
            rw [hunkStep_ctx b n fc l hAt hB hP hM hS]
            refine ⟨?_, ?_, ?_⟩
            · show fc.additions = countType ChangeType.addition (fc.changes ++ _)
              rw [countType_append]
              simp [h1]
            · show fc.deletions = countType ChangeType.deletion (fc.changes ++ _)
              rw [countType_append]
              simp [h2]
            · intro habs
              rw [show ({ fc with changes := fc.changes ++
                  [{ type := ChangeType.context, line := l.drop 1,
                     lineNumber := some n }] } : FileChange).isBinary = fc.isBinary from rfl] at habs
              rw [hbin] at habs
              cases habs
          | false =>
            rw [hunkStep_other b n fc l hAt hB hP hM hS]
            exact ⟨h1, h2, h3⟩

theorem parseSection_eq (ls : List Str) :
    parseSection ls =
      (ls.foldl hunkStep
        (false, 0, ls.foldl applyStatusLine (applyHeader ls initFileChange))).2.2 := rfl

/- ------------------------------------------------------------------ -/
/- Claim theorems.                                                     -/
/- ------------------------------------------------------------------ -/

/-- C1: in every record produced by `parseDiff`, `additions` counts the
addition entries of `changes`, `deletions` counts the deletion entries, and a
binary record has no changes and zero counts. -/
theorem parseDiff_counts_match (diff : Str) (fc : FileChange)
    (hfc : fc ∈ parseDiff diff) :
    fc.additions = countType ChangeType.addition fc.changes ∧
    fc.deletions = countType ChangeType.deletion fc.changes ∧
    (fc.isBinary = true →
      (fc.changes = [] ∧ fc.additions = 0 ∧ fc.deletions = 0)) := by
  unfold parseDiff at hfc
  rw [List.mem_filter] at hfc
  obtain ⟨hmem, -⟩ := hfc
  rw [List.mem_map] at hmem
  obtain ⟨ls, -, rfl⟩ := hmem
  rw [parseSection_eq]
  have hHead := applyHeader_body ls initFileChange
  have hStat := statusFold_body ls (applyHeader ls initFileChange)
  have hb1 : (ls.foldl applyStatusLine (applyHeader ls initFileChange)).additions = 0 :=
    hStat.1.trans hHead.1
  have hb2 : (ls.foldl applyStatusLine (applyHeader ls initFileChange)).deletions = 0 :=
    hStat.2.1.trans hHead.2.1
  have hb3 : (ls.foldl applyStatusLine (applyHeader ls initFileChange)).changes = [] :=
    hStat.2.2.trans hHead.2.2.1
  have hrun := foldl_preserves hunkStep
    (fun s => s.2.2.additions = countType ChangeType.addition s.2.2.changes ∧
      s.2.2.deletions = countType ChangeType.deletion s.2.2.changes ∧
      (s.2.2.isBinary = true → s.2.2.changes = []))
    (fun s l hP => by
      obtain ⟨b, n, g⟩ := s
      exact hunkStep_counts b n g l hP.1 hP.2.1 hP.2.2)
    ls (false, 0, ls.foldl applyStatusLine (applyHeader ls initFileChange))
    ⟨by
      show (ls.foldl applyStatusLine (applyHeader ls initFileChange)).additions =
        countType ChangeType.addition
          (ls.foldl applyStatusLine (applyHeader ls initFileChange)).changes
      rw [hb1, hb3]
      rfl, by
      show (ls.foldl applyStatusLine (applyHeader ls initFileChange)).deletions =
        countType ChangeType.deletion
          (ls.foldl applyStatusLine (applyHeader ls initFileChange)).changes
      rw [hb2, hb3]
      rfl, fun _ => hb3⟩
  refine ⟨hrun.1, hrun.2.1, ?_⟩
  intro hbin
  have hch := hrun.2.2 hbin
  refine ⟨hch, ?_, ?_⟩
  · rw [hrun.1, hch]; rfl
  · rw [hrun.2.1, hch]; rfl

theorem applyStatusLine_isNew (fc : FileChange) (l : Str) :
    (applyStatusLine fc l).isNew = true →
      fc.isNew = true ∨ strStartsWith l strNewFileMode = true := by
  unfold applyStatusLine
  repeat' split
  all_goals intro h
  all_goals simp_all

theorem applyStatusLine_isDeleted (fc : FileChange) (l : Str) :
    (applyStatusLine fc l).isDeleted = true →
      fc.isDeleted = true ∨ strStartsWith l strDeletedFileMode = true := by
  unfold applyStatusLine
  repeat' split
  all_goals intro h
  all_goals simp_all

theorem statusFold_isNew (ls : List Str) (fc : FileChange) :
    (ls.foldl applyStatusLine fc).isNew = true →
      fc.isNew = true ∨ ∃ l ∈ ls, strStartsWith l strNewFileMode = true := by
  induction ls generalizing fc with
  | nil => intro h; exact Or.inl h
  | cons l rest ih =>
    intro h
    rw [List.foldl_cons] at h
    rcases ih (applyStatusLine fc l) h with h1 | hex
    · rcases applyStatusLine_isNew fc l h1 with h2 | h2
      · exact Or.inl h2
      · exact Or.inr ⟨l, List.mem_cons_self l rest, h2⟩
    · obtain ⟨x, hx, hsw⟩ := hex
      exact Or.inr ⟨x, List.mem_cons_of_mem l hx, hsw⟩

theorem statusFold_isDeleted (ls : List Str) (fc : FileChange) :
    (ls.foldl applyStatusLine fc).isDeleted = true →
      fc.isDeleted = true ∨ ∃ l ∈ ls, strStartsWith l strDeletedFileMode = true := by
  induction ls generalizing fc with
  | nil => intro h; exact Or.inl h
  | cons l rest ih =>
    intro h
    rw [List.foldl_cons] at h
    rcases ih (applyStatusLine fc l) h with h1 | hex
    · rcases applyStatusLine_isDeleted fc l h1 with h2 | h2
      · exact Or.inl h2
      · exact Or.inr ⟨l, List.mem_cons_self l rest, h2⟩
    · obtain ⟨x, hx, hsw⟩ := hex
      exact Or.inr ⟨x, List.mem_cons_of_mem l hx, hsw⟩

theorem hunkStep_flags (b : Bool) (n : Nat) (fc : FileChange) (l : Str) :
    (hunkStep (b, n, fc) l).2.2.isNew = fc.isNew ∧
    (hunkStep (b, n, fc) l).2.2.isDeleted = fc.isDeleted := by
  unfold hunkStep
  dsimp only
  repeat' split
  all_goals exact ⟨rfl, rfl⟩

theorem hunkFold_flags (ls : List Str) (b : Bool) (n : Nat) (fc : FileChange) :
    (ls.foldl hunkStep (b, n, fc)).2.2.isNew = fc.isNew ∧
    (ls.foldl hunkStep (b, n, fc)).2.2.isDeleted = fc.isDeleted := by
  induction ls generalizing b n fc with
  | nil => exact ⟨rfl, rfl⟩
  | cons l rest ih =>
    rw [List.foldl_cons]
    have h1 := hunkStep_flags b n fc l
    rcases hs : hunkStep (b, n, fc) l with ⟨b2, n2, fc2⟩
    rw [hs] at h1
    have h2 := ih b2 n2 fc2
    exact ⟨h2.1.trans h1.1, h2.2.trans h1.2⟩

/-- C9 counterexample: the record parsed from a section carrying both marker
lines has `isNew` and `isDeleted` simultaneously true. -/
theorem flags_both_true_cex :
    ((parseDiff c9diff).headD initFileChange) ∈ parseDiff c9diff ∧
    ((parseDiff c9diff).headD initFileChange).isNew = true ∧
    ((parseDiff c9diff).headD initFileChange).isDeleted = true := by
  decide

/-- C9 (amended): `isNew` and `isDeleted` can only be simultaneously true when
the file's section contains both a `new file mode` line and a
`deleted file mode` line; for sections with at most one of the two markers the
flags are mutually exclusive. -/
theorem isNew_isDeleted_markers (diff : Str) (fc : FileChange)
    (hfc : fc ∈ parseDiff diff) (hn : fc.isNew = true) (hd : fc.isDeleted = true) :
    ∃ ls ∈ splitSections diff,
      fc = parseSection ls ∧
      (∃ l ∈ ls, strStartsWith l strNewFileMode = true) ∧
      (∃ l ∈ ls, strStartsWith l strDeletedFileMode = true) := by
  unfold parseDiff at hfc
  rw [List.mem_filter] at hfc
  obtain ⟨hmem, -⟩ := hfc
  rw [List.mem_map] at hmem
  obtain ⟨ls, hls, rfl⟩ := hmem
  refine ⟨ls, hls, rfl, ?_, ?_⟩
  · rw [parseSection_eq] at hn
    have h1 := (hunkFold_flags ls false 0
      (ls.foldl applyStatusLine (applyHeader ls initFileChange))).1.symm.trans hn
    rcases statusFold_isNew ls (applyHeader ls initFileChange) h1 with h2 | h2
    · rw [(applyHeader_body ls initFileChange).2.2.2.1] at h2
      cases h2
    · exact h2
  · rw [parseSection_eq] at hd
    have h1 := (hunkFold_flags ls false 0
      (ls.foldl applyStatusLine (applyHeader ls initFileChange))).2.symm.trans hd
    rcases statusFold_isDeleted ls (applyHeader ls initFileChange) h1 with h2 | h2
    · rw [(applyHeader_body ls initFileChange).2.2.2.2.1] at h2
      cases h2
    · exact h2

/-- C9 witness: at the concrete two-marker section. -/
theorem isNew_isDeleted_markers_w :
    ∃ ls ∈ splitSections c9diff,
      (parseDiff c9diff).headD initFileChange = parseSection ls ∧
      (∃ l ∈ ls, strStartsWith l strNewFileMode = true) ∧
      (∃ l ∈ ls, strStartsWith l strDeletedFileMode = true) :=
  isNew_isDeleted_markers c9diff ((parseDiff c9diff).headD initFileChange)
    (by decide) (by decide) (by decide)

theorem acLineNums_append (cs ds : List CodeChange) :
    acLineNums (cs ++ ds) = acLineNums cs ++ acLineNums ds := by
  unfold acLineNums
  rw [List.filterMap_append]

theorem acLineNums_add_entry (s : Str) (n : Nat) :
    acLineNums [{ type := ChangeType.addition, line := s, lineNumber := some n }] = [n] := rfl

theorem acLineNums_del_entry (s : Str) :
    acLineNums [{ type := ChangeType.deletion, line := s, lineNumber := none }] = [] := rfl

theorem acLineNums_ctx_entry (s : Str) (n : Nat) :
    acLineNums [{ type := ChangeType.context, line := s, lineNumber := some n }] = [n] := rfl

theorem chainLt_range' (n k : Nat) : List.Chain' (· < ·) (List.range' n k) := by
  induction k generalizing n with
  | zero => simp
  | succ k ih =>
    rw [List.range'_succ, List.chain'_cons']
    refine ⟨?_, ih (n + 1)⟩
    intro y hy
    cases k with
    | zero => simp at hy
    | succ k2 =>
      rw [List.range'_succ] at hy
      simp at hy
      omega

/-- C8 counterexample: on `c8diff` the addition/context line numbers of the
single parsed file are `[5, 6, 1]` — not strictly increasing across hunks. -/
theorem lineNumbers_not_monotonic_cex :
    ((parseDiff c8diff).headD initFileChange) ∈ parseDiff c8diff ∧
    acLineNums ((parseDiff c8diff).headD initFileChange).changes = [5, 6, 1] ∧
    ¬ List.Chain' (· < ·)
      (acLineNums ((parseDiff c8diff).headD initFileChange).changes) := by
  refine ⟨by decide, by decide, ?_⟩
  intro hch
  rw [(by decide :
    acLineNums ((parseDiff c8diff).headD initFileChange).changes = [5, 6, 1])] at hch
  rw [List.chain'_cons'] at hch
  have h2 := hch.2
  rw [List.chain'_cons'] at h2
  have := h2.1 1 (by simp)
  omega

/-- C8 (amended): within any run of section lines containing no hunk header,
the hunk loop appends addition/context entries whose line numbers are the
consecutive values from the running counter — hence strictly increasing within
a single hunk; the counter is reseeded by each hunk header, so monotonicity
holds per hunk, not across a whole file. -/
theorem hunk_lineNumbers_increasing (ls : List Str)
    (h : ∀ l ∈ ls, strStartsWith l strAtAt = false) (b : Bool) (n : Nat)
    (fc : FileChange) :
    ∃ k : Nat,
      acLineNums ((ls.foldl hunkStep (b, n, fc)).2.2.changes) =
        acLineNums fc.changes ++ List.range' n k ∧
      (ls.foldl hunkStep (b, n, fc)).2.1 = n + k ∧
      List.Chain' (· < ·) (List.range' n k) := by
  induction ls generalizing b n fc with
  | nil => exact ⟨0, by simp, by simp, by simp⟩
  | cons l rest ih =>
    have hl : strStartsWith l strAtAt = false := h l (List.mem_cons_self l rest)
    have hrest : ∀ x ∈ rest, strStartsWith x strAtAt = false :=
      fun x hx => h x (List.mem_cons_of_mem l hx)
    rw [List.foldl_cons]
    cases hB : (b && !fc.isBinary) with
    | false =>
      rw [hunkStep_idle b n fc l hl hB]
      exact ih hrest b n fc
    | true =>
      cases hP : (strStartsWith l strPlus && !strStartsWith l strTriplePlus) with
      | true =>
        rw [hunkStep_add b n fc l hl hB hP]
        obtain ⟨k, h1, h2, h3⟩ := ih hrest b (n + 1)
          { fc with
            additions := fc.additions + 1
            changes := fc.changes ++ [{ type := ChangeType.addition, line := l.drop 1, lineNumber := some n }] }
        have he : acLineNums ({ fc with
            additions := fc.additions + 1
            changes := fc.changes ++ [{ type := ChangeType.addition, line := l.drop 1, lineNumber := some n }] } : FileChange).changes =
            acLineNums fc.changes ++ [n] := by
          show acLineNums (fc.changes ++ _) = _
          rw [acLineNums_append, acLineNums_add_entry]
        refine ⟨k + 1, ?_, ?_, chainLt_range' n (k + 1)⟩
        · rw [h1, he, List.range'_succ]
          simp [List.append_assoc]
        · rw [h2]
          omega
      | false =>
        cases hM : (strStartsWith l strMinus && !strStartsWith l strTripleMinus) with
        | true =>
          rw [hunkStep_del b n fc l hl hB hP hM]
          obtain ⟨k, h1, h2, h3⟩ := ih hrest b n
            { fc with
              deletions := fc.deletions + 1
              changes := fc.changes ++ [{ type := ChangeType.deletion, line := l.drop 1, lineNumber := none }] }
          have he : acLineNums ({ fc with
              deletions := fc.deletions + 1
              changes := fc.changes ++ [{ type := ChangeType.deletion, line := l.drop 1, lineNumber := none }] } : FileChange).changes =
              acLineNums fc.changes := by
            show acLineNums (fc.changes ++ _) = _
            rw [acLineNums_append, acLineNums_del_entry, List.append_nil]
          exact ⟨k, by rw [h1, he], h2, h3⟩
        | false =>
          cases hS : strStartsWith l strSpace with
          | true =>
            rw [hunkStep_ctx b n fc l hl hB hP hM hS]
            obtain ⟨k, h1, h2, h3⟩ := ih hrest b (n + 1)
              { fc with changes := fc.changes ++ [{ type := ChangeType.context, line := l.drop 1, lineNumber := some n }] }
            have he : acLineNums ({ fc with changes := fc.changes ++ [{ type := ChangeType.context, line := l.drop 1, lineNumber := some n }] } : FileChange).changes =
                acLineNums fc.changes ++ [n] := by
              show acLineNums (fc.changes ++ _) = _
              rw [acLineNums_append, acLineNums_ctx_entry]
            refine ⟨k + 1, ?_, ?_, chainLt_range' n (k + 1)⟩
            · rw [h1, he, List.range'_succ]
              simp [List.append_assoc]
            · rw [h2]
              omega
          | false =>
            rw [hunkStep_other b n fc l hl hB hP hM hS]
            exact ih hrest b n fc

/-- C8 witness: a header-free run of a context and an addition line starting
at counter 5 yields the consecutive numbers 5, 6. -/
theorem hunk_lineNumbers_increasing_w :
    ∃ k : Nat,
      acLineNums (([w8ctx, w8add].foldl hunkStep (true, 5, initFileChange)).2.2.changes) =
        acLineNums initFileChange.changes ++ List.range' 5 k ∧
      ([w8ctx, w8add].foldl hunkStep (true, 5, initFileChange)).2.1 = 5 + k ∧
      List.Chain' (· < ·) (List.range' 5 k) :=
  hunk_lineNumbers_increasing [w8ctx, w8add] (by decide) true 5 initFileChange

/-- C1 witness: the record parsed from `w1diff` satisfies the invariants. -/
theorem parseDiff_counts_match_w :
    ((parseDiff w1diff).headD initFileChange).additions =
      countType ChangeType.addition ((parseDiff w1diff).headD initFileChange).changes ∧
    ((parseDiff w1diff).headD initFileChange).deletions =
      countType ChangeType.deletion ((parseDiff w1diff).headD initFileChange).changes ∧
    (((parseDiff w1diff).headD initFileChange).isBinary = true →
      (((parseDiff w1diff).headD initFileChange).changes = [] ∧
        ((parseDiff w1diff).headD initFileChange).additions = 0 ∧
        ((parseDiff w1diff).headD initFileChange).deletions = 0)) :=
  parseDiff_counts_match w1diff ((parseDiff w1diff).headD initFileChange) (by decide)

/-- C2: `isLargeDiff` is true iff the file count exceeds 50, the summed
changes exceed 500, or the token estimate of the raw text exceeds 15000 —
all with strict greater-than, so a diff sitting exactly at all three
thresholds is not large. -/
theorem isLargeDiff_iff (diff : Str) (files : Option (List FileChange)) :
    isLargeDiff diff files = true ↔
      (50 < (calculateDiffStats (files.getD (parseDiff diff))).totalFiles ∨
        500 < (calculateDiffStats (files.getD (parseDiff diff))).totalChanges ∨
        15000 < estimateTokens diff) := by
  cases files <;>
    simp [isLargeDiff, Option.getD, Bool.or_eq_true, decide_eq_true_iff, or_assoc]

/-- C3 counterexample: on the one-character input the pipeline's
`estimatedTokens` is 0 while the token estimate of the raw text is 1. -/
theorem processDiff_estimatedTokens_cex :
    (processDiffIntelligently c3diff).stats.estimatedTokens ≠ estimateTokens c3diff := by
  decide

/-- C3 (amended): the `DiffStats` returned by `processDiffIntelligently`
always has `estimatedTokens = 0`; the raw-text estimate is computed inside
`isLargeDiff` but never stored in the returned stats. -/
theorem processDiff_estimatedTokens_zero (diff : Str) :
    (processDiffIntelligently diff).stats.estimatedTokens = 0 := by
  cases h : isLargeDiff diff (some (parseDiff diff)) <;>
    simp [processDiffIntelligently, h, calculateDiffStats]

/-- C4: the orchestrator returns the original text with `wasCompacted = false`
exactly when the diff is not classified large, the compact summary with
`wasCompacted = true` exactly when it is, and in both cases the stats computed
from the parsed records. -/
theorem processDiff_branches (diff : Str) :
    (processDiffIntelligently diff).stats = calculateDiffStats (parseDiff diff) ∧
    (isLargeDiff diff (some (parseDiff diff)) = false ↔
      ((processDiffIntelligently diff).wasCompacted = false ∧
        (processDiffIntelligently diff).content = diff)) ∧
    (isLargeDiff diff (some (parseDiff diff)) = true ↔
      ((processDiffIntelligently diff).wasCompacted = true ∧
        (processDiffIntelligently diff).content =
          generateCompactDiffSummary (parseDiff diff) 15)) := by
  cases h : isLargeDiff diff (some (parseDiff diff)) <;>
    simp [processDiffIntelligently, h]

/-- C6: `estimateTokens` is the character count divided by 2.5 and rounded up
(the least natural number at least `length / 2.5`); it maps the empty string
to 0 and is monotone in the length. -/
theorem estimateTokens_spec :
    estimateTokens [] = 0 ∧
    (∀ text : Str,
      ((text.length : ℚ) / (5 / 2) ≤ (estimateTokens text : ℚ)) ∧
      (∀ m : ℕ, ((text.length : ℚ) / (5 / 2) ≤ (m : ℚ)) → estimateTokens text ≤ m)) ∧
    (∀ t u : Str, t.length ≤ u.length → estimateTokens t ≤ estimateTokens u) := by
  refine ⟨rfl, ?_, ?_⟩
  · intro text
    constructor
    · rw [div_le_iff₀ (by norm_num : (0 : ℚ) < 5 / 2)]
      have h : 2 * text.length ≤ 5 * estimateTokens text := by
        unfold estimateTokens; omega
      have h2 := (Nat.cast_le (α := ℚ)).mpr h
      push_cast at h2 ⊢
      linarith
    · intro m hm
      rw [div_le_iff₀ (by norm_num : (0 : ℚ) < 5 / 2)] at hm
      have h2 : ((2 * text.length : ℕ) : ℚ) ≤ ((5 * m : ℕ) : ℚ) := by push_cast; linarith
      have h3 : 2 * text.length ≤ 5 * m := by exact_mod_cast h2
      unfold estimateTokens; omega
  · intro t u h
    unfold estimateTokens; omega

/-- C6 witness: at the concrete seven- and three-character texts. -/
theorem estimateTokens_spec_w :
    estimateTokens w6seven ≤ 3 ∧ estimateTokens w6three ≤ estimateTokens w6seven := by
  constructor
  · refine (estimateTokens_spec.2.1 w6seven).2 3 ?_
    have h7 : w6seven.length = 7 := rfl
    rw [h7]; norm_num
  · exact estimateTokens_spec.2.2 w6three w6seven (by decide)

/-- C7: `parseDiff` is a total function; on the empty input it returns the
empty list, and every emitted record has a non-empty path. -/
theorem parseDiff_never_fails :
    parseDiff [] = [] ∧
    ∀ (diff : Str) (fc : FileChange), fc ∈ parseDiff diff → fc.path ≠ [] := by
  refine ⟨rfl, ?_⟩
  intro diff fc hfc heq
  unfold parseDiff at hfc
  rw [List.mem_filter] at hfc
  have h2 := hfc.2
  rw [heq] at h2
  exact absurd h2 (by decide)

/-- C7 witness: the record parsed from `w1diff` has a non-empty path. -/
theorem parseDiff_never_fails_w :
    ((parseDiff w1diff).headD initFileChange).path ≠ [] :=
  parseDiff_never_fails.2 w1diff ((parseDiff w1diff).headD initFileChange) (by decide)

/-- C10: on a large diff the orchestrator's content is the compact summary at
the fixed per-file cap 15 — not the compactor's declared default 20 — so no
file ever shows more than 15 change lines. -/
theorem processDiff_cap_fifteen (diff : Str)
    (h : isLargeDiff diff (some (parseDiff diff)) = true) :
    (processDiffIntelligently diff).content =
      generateCompactDiffSummary (parseDiff diff) 15 ∧
    (15 : Nat) ≠ defaultMaxLinesPerFile ∧
    ∀ f ∈ parseDiff diff, (shownChanges 15 f).length ≤ 15 := by
  refine ⟨?_, by decide, ?_⟩
  · simp [processDiffIntelligently, h]
  · intro f _
    unfold shownChanges
    rw [List.length_take]
    exact min_le_left _ _

set_option maxRecDepth 100000 in
/-- C10 witness: the 51-file diff is large and gets the cap-15 summary. -/
theorem processDiff_cap_fifteen_w :
    (processDiffIntelligently c10diff).content =
      generateCompactDiffSummary (parseDiff c10diff) 15 ∧
    (15 : Nat) ≠ defaultMaxLinesPerFile ∧
    ∀ f ∈ parseDiff c10diff, (shownChanges 15 f).length ≤ 15 :=
  processDiff_cap_fifteen c10diff (by decide)

/-- C5: the compact summary contains each file's section; a fenced listing
exists only when a non-trivial change line (kind not context, text non-empty
after trimming) exists; at most `cap` such lines are shown, each rendered with
its `+`/`-` marker; and exactly one truncation notice with the remaining count
follows exactly when more non-trivial lines exist than were shown. -/
theorem compactSummary_per_file_caps (files : List FileChange) (cap : Nat)
    (_hcap : 0 < cap) (f : FileChange) (hf : f ∈ files) :
    (∃ pre post,
      generateCompactDiffSummary files cap = pre ++ fileSection cap f ++ post) ∧
    ((meaningfulChanges f).length = 0 → changesBlock cap f = []) ∧
    (shownChanges cap f).length ≤ cap ∧
    (∀ c ∈ shownChanges cap f,
      c.type ≠ ChangeType.context ∧ 0 < (trim c.line).length) ∧
    (cap < (meaningfulChanges f).length →
      changesBlock cap f =
        keyChangesOpen ++ ((shownChanges cap f).map renderChange).flatten ++
          (noticeStart ++ natToStr ((meaningfulChanges f).length - cap) ++ noticeEnd) ++
          fenceClose) ∧
    (0 < (meaningfulChanges f).length → (meaningfulChanges f).length ≤ cap →
      changesBlock cap f =
        keyChangesOpen ++ ((meaningfulChanges f).map renderChange).flatten ++
          fenceClose) := by
  refine ⟨?_, ?_, ?_, ?_, ?_, ?_⟩
  · obtain ⟨s, t, rfl⟩ := List.append_of_mem hf
    refine ⟨sumHeader ++ statsLine (calculateDiffStats (s ++ f :: t)) ++
      (s.map (fileSection cap)).flatten, (t.map (fileSection cap)).flatten, ?_⟩
    unfold generateCompactDiffSummary
    rw [List.map_append, List.map_cons, List.flatten_append, List.flatten_cons]
    simp [List.append_assoc]
  · intro h0
    simp [changesBlock, h0]
  · unfold shownChanges
    rw [List.length_take]
    exact min_le_left _ _
  · intro c hc
    unfold shownChanges at hc
    have hc2 : c ∈ meaningfulChanges f := List.mem_of_mem_take hc
    unfold meaningfulChanges at hc2
    rw [List.mem_filter] at hc2
    have h3 := hc2.2
    simp at h3
    exact ⟨h3.1, h3.2⟩
  · intro hlt
    have h0 : 0 < (meaningfulChanges f).length := Nat.lt_of_le_of_lt (Nat.zero_le cap) hlt
    simp only [changesBlock, shownChanges]
    rw [if_pos h0, if_pos hlt]
  · intro h0 hle
    have hnot : ¬ cap < (meaningfulChanges f).length := Nat.not_lt.mpr hle
    have htake : (meaningfulChanges f).take cap = meaningfulChanges f :=
      List.take_of_length_le hle
    simp only [changesBlock]
    rw [if_pos h0, if_neg hnot, htake]
    simp

/-- C5 witness: the concrete one-file list with three non-trivial changes and
cap 2. -/
theorem compactSummary_per_file_caps_w :
    (∃ pre post,
      generateCompactDiffSummary c5files 2 = pre ++ fileSection 2 c5file ++ post) ∧
    ((meaningfulChanges c5file).length = 0 → changesBlock 2 c5file = []) ∧
    (shownChanges 2 c5file).length ≤ 2 ∧
    (∀ c ∈ shownChanges 2 c5file,
      c.type ≠ ChangeType.context ∧ 0 < (trim c.line).length) ∧
    (2 < (meaningfulChanges c5file).length →
      changesBlock 2 c5file =
        keyChangesOpen ++ ((shownChanges 2 c5file).map renderChange).flatten ++
          (noticeStart ++ natToStr ((meaningfulChanges c5file).length - 2) ++ noticeEnd) ++
          fenceClose) ∧
    (0 < (meaningfulChanges c5file).length → (meaningfulChanges c5file).length ≤ 2 →
      changesBlock 2 c5file =
        keyChangesOpen ++ ((meaningfulChanges c5file).map renderChange).flatten ++
          fenceClose) :=
  compactSummary_per_file_caps c5files 2 (by decide) c5file (by decide)

end GeminiCommits
